import Mathlib

/-!
Verification of the AI-study-assistant RAG/quiz pipeline.

Shallow embedding of the repository's Python modules `src/ingestion.py`,
`src/rag.py` and `src/quiz_generator.py`.  Python strings are modelled as
`List Char` (ASCII fragment: `str.upper`, `str.strip` and `str.split` are
modelled on their ASCII behaviour, which covers every string the program
manipulates in the claims below).  Python floats are modelled as exact
rationals; `round(x, 1)` is modelled as round-half-to-even at one decimal
digit, which is Python 3's rounding mode.  External collaborators (the
Ollama LLM, the Chroma vector store, the langchain splitter and the stdlib
`json.loads`) are parameters of the embedded operations, per the spec's
interface boundary.
-/

namespace StudyAssistant

abbrev Str := List Char

/-- The backtick character (written via its code point). -/
def backtick : Char := Char.ofNat 96

/-- The opening-brace character (written via its code point). -/
def lbrace : Char := Char.ofNat 123

/-- The closing-brace character (written via its code point). -/
def rbrace : Char := Char.ofNat 125

/-- The NUL character removed by `clean_text`. -/
def nullChar : Char := Char.ofNat 0

/-- ASCII whitespace as recognised by Python's `str.split()` / `str.strip()`:
space, tab, newline, carriage return, vertical tab, form feed. -/
def isPySpace (c : Char) : Bool :=
  c = ' ' || c = '\t' || c = '\n' || c = '\r' || c = Char.ofNat 11 || c = Char.ofNat 12

/-- Python `str.strip()`: drop whitespace from both ends. -/
def stripList (s : Str) : Str :=
  ((s.dropWhile isPySpace).reverse.dropWhile isPySpace).reverse

/-- Split a string around the first occurrence of `sep`: Python
`text.split(sep)` exposes the part before (`[0]`) and after (`[1]`) the
first separator occurrence; `none` when `sep` does not occur. -/
def splitFirstSub (sep : Str) : Str → Option (Str × Str)
  | [] => if sep.isEmpty then some ([], []) else none
  | c :: s =>
    if sep.isPrefixOf (c :: s) then some ([], List.drop sep.length (c :: s))
    else (splitFirstSub sep s).map (fun p => (c :: p.1, p.2))

/-- Python `sep in text`. -/
def containsSub (sep s : Str) : Bool := (splitFirstSub sep s).isSome

/-- Python `text.split(sep)[1]` (only evaluated when `sep` occurs). -/
def afterFirstSub (sep s : Str) : Str :=
  match splitFirstSub sep s with
  | some p => p.2
  | none => s

/-- Python `text.split(sep)[0]` (the whole string when `sep` is absent). -/
def beforeFirstSub (sep s : Str) : Str :=
  match splitFirstSub sep s with
  | some p => p.1
  | none => s

/-- Python `text.split(sep)` in full.  The `else` branch of the inner guard
is unreachable for a non-empty separator (the remainder after an occurrence
is strictly shorter); it exists only to justify termination. -/
def splitAllSub (sep : Str) (s : Str) : List Str :=
  match splitFirstSub sep s with
  | none => [s]
  | some (b, a) =>
    if _hlt : a.length < s.length then b :: splitAllSub sep a else [b, a]
termination_by s.length

/-- Index of the first occurrence of character `t`. -/
def firstIdxOf (t : Char) : Str → Option Nat
  | [] => none
  | c :: s => if c = t then some 0 else (firstIdxOf t s).map (· + 1)

/-- Index of the last occurrence of character `t`. -/
def lastIdxOf (t : Char) (s : Str) : Option Nat :=
  (firstIdxOf t s.reverse).map (fun k => s.length - 1 - k)

/-- The Python regex step `re.search(r'\x7b.*\x7d', text, re.DOTALL)`:
with a greedy `.*` under DOTALL, a match exists exactly when the first
opening brace lies strictly before the last closing brace, and the matched
span runs from that first opening brace to that last closing brace. -/
def braceSpan (s : Str) : Option Str :=
  match firstIdxOf lbrace s, lastIdxOf rbrace s with
  | some i, some j => if i < j then some ((s.drop i).take (j - i + 1)) else none
  | _, _ => none

/-- The loop in `_extract_json`'s `elif` branch: the first split part
containing both an opening and a closing brace. -/
def firstPartWithBraces : List Str → Option Str
  | [] => none
  | p :: ps => if lbrace ∈ p ∧ rbrace ∈ p then some p else firstPartWithBraces ps

/-- The literal separator used by the fenced-JSON check. -/
def tickJson : Str := "```json".toList

/-- A plain code fence. -/
def ticks : Str := "```".toList

/-- `QuizGenerator._extract_json` (src/quiz_generator.py lines 115-133):
prefer the body of a ```json fence, else the first generic fenced part with
braces, then take the greedy first-brace-to-last-brace span, and strip. -/
def extractJson (text : Str) : Str :=
  let text1 :=
    if containsSub tickJson text then
      beforeFirstSub ticks (afterFirstSub tickJson text)
    else if containsSub ticks text then
      match firstPartWithBraces (splitAllSub ticks text) with
      | some p => p
      | none => text
    else text
  let text2 :=
    match braceSpan text1 with
    | some m => m
    | none => text1
  stripList text2

/-- Python `str.upper()` on the ASCII fragment. -/
def pyUpper (s : Str) : Str := s.map Char.toUpper

/-- The literal shown for a missing submission. -/
def notAnswered : Str := "Not answered".toList

/-- A quiz question as consumed by `grade_quiz`: a Python dict, of which
grading reads `question`, `correct_answer` and `explanation` (each possibly
absent). -/
structure Question where
  question : Option Str
  correct_answer : Option Str
  explanation : Option Str
deriving DecidableEq

/-- One per-question record appended to `results` by `grade_quiz`. -/
structure GradedRow where
  question_number : Nat
  question : Option Str
  user_answer : Str
  correct_answer : Str
  is_correct : Bool
  explanation : Str
deriving DecidableEq

/-- The body of `grade_quiz`'s loop for index `idx` (src/quiz_generator.py
lines 150-165).  `user_answers.get(idx, "")` is the submitted answer with
empty-string default; both sides are uppercased before comparison. -/
def gradeRow (idx : Nat) (q : Question) (ans : Nat → Option Str) : GradedRow :=
  let user_answer := pyUpper ((ans idx).getD [])
  let correct_answer := pyUpper (q.correct_answer.getD [])
  { question_number := idx + 1
    question := q.question
    user_answer := if user_answer.isEmpty then notAnswered else user_answer
    correct_answer := correct_answer
    is_correct := decide (user_answer = correct_answer)
    explanation := q.explanation.getD [] }

/-- The `for idx, question in enumerate(questions)` loop of `grade_quiz`. -/
def gradeRows (idx : Nat) (qs : List Question) (ans : Nat → Option Str) :
    List GradedRow :=
  match qs with
  | [] => []
  | q :: rest => gradeRow idx q ans :: gradeRows (idx + 1) rest ans

/-- Round-half-to-even to an integer (Python 3 `round` on exact values). -/
def roundHalfEven (x : ℚ) : ℤ :=
  let n := ⌊x⌋
  let r := x - (n : ℚ)
  if r < 1 / 2 then n
  else if 1 / 2 < r then n + 1
  else if n % 2 = 0 then n else n + 1

/-- Python `round(x, 1)`. -/
def pyRound1 (x : ℚ) : ℚ := ((roundHalfEven (10 * x) : ℤ) : ℚ) / 10

/-- The dict returned by `grade_quiz`; the redundant `percentage` field is
the same rounded value rendered as a string and is not modelled separately. -/
structure GradeOutcome where
  score : ℚ
  correct : Nat
  total : Nat
  results : List GradedRow
deriving DecidableEq

/-- `QuizGenerator.grade_quiz` (src/quiz_generator.py lines 135-177). -/
def grade_quiz (questions : List Question) (user_answers : Nat → Option Str) :
    GradeOutcome :=
  let results := gradeRows 0 questions user_answers
  let correct_count := (results.filter (fun r => r.is_correct)).length
  let score : ℚ :=
    if questions.isEmpty then 0
    else ((correct_count : ℚ) / (questions.length : ℚ)) * 100
  { score := pyRound1 score
    correct := correct_count
    total := questions.length
    results := results }

/-- Specification-side count of matching answers, starting at index `idx`:
the number of questions whose (defaulted, uppercased) submitted answer
equals the (defaulted, uppercased) correct answer. -/
def matchCount (qs : List Question) (ans : Nat → Option Str) (idx : Nat) : Nat :=
  match qs with
  | [] => 0
  | q :: rest =>
    (if pyUpper ((ans idx).getD []) = pyUpper (q.correct_answer.getD []) then 1 else 0)
      + matchCount rest ans (idx + 1)

/-- A retrieved / ingested document chunk: `page_content` plus the metadata
fields the pipeline reads (`metadata.get('source', 'unknown')` and
`metadata.get('page', 'N/A')`).  An absent page is rendered by the code as
the string N/A; the model keeps it as `none`. -/
structure Doc where
  page_content : Str
  source : Option Str
  page : Option Int
deriving DecidableEq

/-- Python `sep.join(parts)`. -/
def joinWith (sep : Str) : List Str → Str
  | [] => []
  | [x] => x
  | x :: y :: rest => x ++ sep ++ joinWith sep (y :: rest)

/-- The separator used for context assembly. -/
def nl2 : Str := "\n\n".toList

/-- Default source name. -/
def unknownSource : Str := "unknown".toList

/-- Render the page value the way the source tag does. -/
def pageStr (d : Doc) : Str :=
  match d.page with
  | some n => (toString n).toList
  | none => "N/A".toList

/-- The per-chunk prefix used by `ask_question`'s context. -/
def sourceTagFor (d : Doc) : Str :=
  "[Source: ".toList ++ d.source.getD unknownSource
    ++ ", Page: ".toList ++ pageStr d ++ "]\n".toList

/-- One entry of the `sources` list returned by `ask_question`. -/
structure SourceCitation where
  source : Str
  page : Option Int
  excerpt : Str
deriving DecidableEq

/-- The string appended to every excerpt. -/
def ellipsis : Str := "...".toList

/-- A source citation for a retrieved chunk (src/rag.py lines 69-76):
source name, page, and the first 200 characters of the content followed by
an ellipsis. -/
def mkCitation (d : Doc) : SourceCitation :=
  { source := d.source.getD unknownSource
    page := d.page
    excerpt := d.page_content.take 200 ++ ellipsis }

/-- The sentinel answer for empty retrieval in `ask_question`. -/
def noInfoAnswer : Str :=
  "I couldn\x27t find relevant information in your study materials.".toList

/-- The dict returned by `ask_question`. -/
structure AskResult where
  answer : Str
  sources : List SourceCitation
deriving DecidableEq

/-- The values substituted into `QA_PROMPT_TEMPLATE`; the surrounding
template text is a fixed constant, so a prompt is determined by them. -/
structure QAPrompt where
  context : Str
  question : Str
deriving DecidableEq

/-- `RAGSystem.ask_question` (src/rag.py lines 35-81), parameterised by the
retrieval result `docs` (the external vector store's `similarity_search`)
and the external LLM `llm` (`self.llm.invoke` on the rendered prompt). -/
def ask_question (docs : List Doc) (llm : QAPrompt → Str) (question : Str) :
    AskResult :=
  if docs.isEmpty then { answer := noInfoAnswer, sources := [] }
  else
    let context := joinWith nl2 (docs.map (fun d => sourceTagFor d ++ d.page_content))
    { answer := llm { context := context, question := question }
      sources := docs.map mkCitation }

/-- The sentinel summary for empty retrieval in `summarize`. -/
def noSummary : Str := "No content found to summarize.".toList

/-- The dict returned by `summarize`. -/
structure SummarizeResult where
  summary : Str
  sources : List Str
deriving DecidableEq

/-- The values substituted into `SUMMARIZATION_PROMPT_TEMPLATE`. -/
structure SummPrompt where
  context : Str
  summary_type : Str
deriving DecidableEq

/-- The deduplicated source-name list `list(set(...))` built from retrieved
chunks; Python's set iteration order is unspecified, modelled as `dedup`. -/
def dedupSources (docs : List Doc) : List Str :=
  (docs.map (fun d => d.source.getD unknownSource)).dedup

/-- The context string handed to the summarization template: the
concatenation of all retrieved contents, truncated to 4000 characters at
format time (src/rag.py lines 106-110). -/
def summContext (docs : List Doc) : Str :=
  (joinWith nl2 (docs.map (fun d => d.page_content))).take 4000

/-- `RAGSystem.summarize` (src/rag.py lines 83-126), parameterised by the
retrieval result and the external LLM. -/
def summarize (docs : List Doc) (llm : SummPrompt → Str) (summary_type : Str) :
    SummarizeResult :=
  if docs.isEmpty then { summary := noSummary, sources := [] }
  else
    { summary := llm { context := summContext docs, summary_type := summary_type }
      sources := dedupSources docs }

/-- The sentinel for empty retrieval in `extract_definitions`. -/
def noDefs : Str := "No definitions found.".toList

/-- The dict returned by `extract_definitions`. -/
structure DefsResult where
  definitions : Str
  sources : List Str
deriving DecidableEq

/-- The value substituted into `DEFINITION_EXTRACTION_PROMPT`. -/
structure DefPrompt where
  context : Str
deriving DecidableEq

/-- `RAGSystem.extract_definitions` (src/rag.py lines 128-157): same shape
as `summarize`, 4000-character context budget. -/
def extract_definitions (docs : List Doc) (llm : DefPrompt → Str) : DefsResult :=
  if docs.isEmpty then { definitions := noDefs, sources := [] }
  else
    { definitions := llm { context := summContext docs }
      sources := dedupSources docs }

/-- Accumulator pass behind Python `str.split()` (no separator argument):
maximal runs of non-whitespace characters, in order, with no empty pieces.
`cur` holds the current run reversed. -/
def pySplitWsAux (cur : Str) : Str → List Str
  | [] => if cur.isEmpty then [] else [cur.reverse]
  | c :: s =>
    if isPySpace c then
      if cur.isEmpty then pySplitWsAux [] s else cur.reverse :: pySplitWsAux [] s
    else pySplitWsAux (c :: cur) s

/-- Python `text.split()`. -/
def pySplitWs (t : Str) : List Str := pySplitWsAux [] t

/-- The first cleanup step of `clean_text`: Python
`' '.join(text.split())`. -/
def collapseWs (t : Str) : Str := joinWith [' '] (pySplitWs t)

/-- The second cleanup step: Python `text.replace(chr(0), '')`. -/
def removeNulls (t : Str) : Str := t.filter (fun c => c ≠ nullChar)

/-- `DocumentIngestion.clean_text` (src/ingestion.py lines 85-92): collapse
whitespace runs, remove NUL characters, strip. -/
def clean_text (t : Str) : Str := stripList (removeNulls (collapseWs t))

/-- One element of the `raw_docs` list produced by the PDF/text extractors:
a raw content string plus its metadata fields. -/
structure RawDoc where
  content : Str
  source : Option Str
  page : Option Int
deriving DecidableEq

/-- The cleaning/filtering loop of `process_documents` (src/ingestion.py
lines 115-122): keep a document when its cleaned text is truthy and longer
than 50 characters. -/
def keptDocs (raw_docs : List RawDoc) : List Doc :=
  raw_docs.filterMap (fun d =>
    let cleaned := clean_text d.content
    if cleaned ≠ [] ∧ 50 < cleaned.length then
      some { page_content := cleaned, source := d.source, page := d.page }
    else none)

/-- `DocumentIngestion.process_documents` after text extraction
(src/ingestion.py lines 110-133), parameterised by the external langchain
splitter `split_documents` and by the extraction result `raw_docs`. -/
def process_documents (split_documents : List Doc → List Doc)
    (raw_docs : List RawDoc) : Except Str (List Doc) :=
  if raw_docs.isEmpty then
    Except.error "No content extracted from document".toList
  else
    Except.ok (split_documents (keptDocs raw_docs))

/-- A JSON value, the result shape of the external `json.loads`. -/
inductive Json where
  | null : Json
  | bool : Bool → Json
  | num : Int → Json
  | str : Str → Json
  | arr : List Json → Json
  | obj : List (Str × Json) → Json

/-- Dict lookup on a parsed JSON object. -/
def jsonLookup (key : Str) : List (Str × Json) → Option Json
  | [] => none
  | (k, v) :: rest => if k = key then some v else jsonLookup key rest

/-- The key checked by the structure validation. -/
def questionsKey : Str := "questions".toList

/-- The context string handed to the quiz template: the concatenation of
the contents of at most the first 8 retrieved chunks, truncated to 3000
characters (src/quiz_generator.py lines 62-63). -/
def quizContext (docs : List Doc) : Str :=
  (joinWith nl2 ((docs.take 8).map (fun d => d.page_content))).take 3000

/-- The values substituted into `QUIZ_GENERATION_PROMPT`. -/
structure QuizPrompt where
  num_questions : Nat
  context : Str
  difficulty : Str
deriving DecidableEq

/-- A successful quiz return: the parsed data, its `questions` array, and
the attached metadata (src/quiz_generator.py lines 90-96). -/
structure QuizSuccess where
  data : Json
  questions : List Json
  meta_topic : Str
  meta_difficulty : Str
  meta_num_questions : Nat
  meta_sources : List Str

/-- The dict returned by `generate_quiz`.  `noContent` is the empty-retrieval
error; `parseError` is the `json.JSONDecodeError` handler, whose dict carries
`raw_response` (the value of the `quiz_text` variable at that point) and an
empty `questions` list; `genError` is the generic `except Exception` handler
(reached by the `Invalid quiz structure` ValueError), whose dict carries an
error message and an empty `questions` list but no raw text. -/
inductive QuizReturn where
  | noContent : QuizReturn
  | parseError : Str → QuizReturn
  | genError : QuizReturn
  | success : QuizSuccess → QuizReturn

/-- The `questions` list carried by a `generate_quiz` return value: every
error dict carries `"questions": []`. -/
def returnedQuestions : QuizReturn → List Json
  | QuizReturn.success s => s.questions
  | _ => []

/-- The body of `generate_quiz`'s `try` block after the model call
(src/quiz_generator.py lines 80-113): extraction, `json.loads` (modelled by
the external parameter `loads`, where `none` is a raised
`json.JSONDecodeError`), structure validation and metadata attachment.
Note the `raw_response` of a parse error is the `quiz_text` variable, which
was reassigned to `_extract_json`'s result before `json.loads` runs. -/
def quizPostProcess (docs : List Doc) (loads : Str → Option Json)
    (topic : Str) (difficulty : Str) (modelOutput : Str) : QuizReturn :=
  let quiz_text := extractJson modelOutput
  match loads quiz_text with
  | none => QuizReturn.parseError quiz_text
  | some data =>
    match data with
    | Json.obj kvs =>
      match jsonLookup questionsKey kvs with
      | some (Json.arr qs) =>
        QuizReturn.success
          { data := data, questions := qs, meta_topic := topic
            meta_difficulty := difficulty, meta_num_questions := qs.length
            meta_sources := dedupSources (docs.take 5) }
      | _ => QuizReturn.genError
    | _ => QuizReturn.genError

/-- `QuizGenerator.generate_quiz` (src/quiz_generator.py lines 26-113),
parameterised by the retrieval result `docs` and the external LLM `llm`:
the retrieval guard, the prompt built from the truncated context, the model
call, and the post-processing above. -/
def generate_quiz (docs : List Doc) (llm : QuizPrompt → Str)
    (loads : Str → Option Json) (topic : Str) (num_questions : Nat)
    (difficulty : Str) : QuizReturn :=
  if docs.isEmpty then QuizReturn.noContent
  else
    quizPostProcess docs loads topic difficulty
      (llm { num_questions := num_questions, context := quizContext docs
             difficulty := difficulty })

/-- JSON insignificant whitespace (RFC 8259, as accepted by `json.loads`). -/
def skipJsonWs (s : Str) : Str :=
  s.dropWhile (fun c => c = ' ' || c = '\t' || c = '\n' || c = '\r')

/-- Parse a JSON string body after the opening quote.  Escape sequences are
not needed by any input in this development and make the parse fail. -/
def parseJsonString (s : Str) : Option (Str × Str) :=
  let body := s.takeWhile (fun c => c ≠ '"' && c ≠ '\\')
  match s.drop body.length with
  | c :: rest => if c = '"' then some (body, rest) else none
  | [] => none

/-- Parse a non-empty run of decimal digits. -/
def parseJsonNat (s : Str) : Option (Nat × Str) :=
  let ds := s.takeWhile (fun c => c.isDigit)
  if ds.isEmpty then none
  else some (ds.foldl (fun acc c => acc * 10 + (c.toNat - 48)) 0, s.drop ds.length)

mutual

/-- Parse one JSON value (integer numbers only; fractions and exponents are
not needed by any input in this development). -/
def parseJsonValue : Nat → Str → Option (Json × Str)
  | 0, _ => none
  | fuel + 1, s =>
    match skipJsonWs s with
    | [] => none
    | c :: rest =>
      if c = lbrace then parseJsonObjTail fuel rest
      else if c = '[' then parseJsonArrTail fuel rest
      else if c = '"' then (parseJsonString rest).map (fun p => (Json.str p.1, p.2))
      else if c = '-' then (parseJsonNat rest).map (fun p => (Json.num (-(p.1 : Int)), p.2))
      else if c.isDigit then
        (parseJsonNat (c :: rest)).map (fun p => (Json.num (p.1 : Int), p.2))
      else if "null".toList.isPrefixOf (c :: rest) then some (Json.null, (c :: rest).drop 4)
      else if "true".toList.isPrefixOf (c :: rest) then some (Json.bool true, (c :: rest).drop 4)
      else if "false".toList.isPrefixOf (c :: rest) then some (Json.bool false, (c :: rest).drop 5)
      else none

/-- Parse an array after its opening bracket. -/
def parseJsonArrTail : Nat → Str → Option (Json × Str)
  | 0, _ => none
  | fuel + 1, s =>
    match skipJsonWs s with
    | c :: rest =>
      if c = ']' then some (Json.arr [], rest)
      else
        match parseJsonValue fuel (c :: rest) with
        | some (v, r) => parseJsonArrMore fuel [v] r
        | none => none
    | [] => none

/-- Parse the remaining comma-separated array elements. -/
def parseJsonArrMore : Nat → List Json → Str → Option (Json × Str)
  | 0, _, _ => none
  | fuel + 1, acc, s =>
    match skipJsonWs s with
    | c :: rest =>
      if c = ']' then some (Json.arr acc, rest)
      else if c = ',' then
        match parseJsonValue fuel rest with
        | some (v, r) => parseJsonArrMore fuel (acc ++ [v]) r
        | none => none
      else none
    | [] => none

/-- Parse an object after its opening brace. -/
def parseJsonObjTail : Nat → Str → Option (Json × Str)
  | 0, _ => none
  | fuel + 1, s =>
    match skipJsonWs s with
    | c :: rest =>
      if c = rbrace then some (Json.obj [], rest)
      else if c = '"' then
        match parseJsonString rest with
        | some (k, r) => parseJsonMember fuel [] k r
        | none => none
      else none
    | [] => none

/-- Parse the value of the member named `k`, then the rest of the object. -/
def parseJsonMember : Nat → List (Str × Json) → Str → Str → Option (Json × Str)
  | 0, _, _, _ => none
  | fuel + 1, acc, k, s =>
    match skipJsonWs s with
    | c :: rest =>
      if c = ':' then
        match parseJsonValue fuel rest with
        | some (v, r) => parseJsonObjMore fuel (acc ++ [(k, v)]) r
        | none => none
      else none
    | [] => none

/-- Parse the remaining comma-separated object members. -/
def parseJsonObjMore : Nat → List (Str × Json) → Str → Option (Json × Str)
  | 0, _, _ => none
  | fuel + 1, acc, s =>
    match skipJsonWs s with
    | c :: rest =>
      if c = rbrace then some (Json.obj acc, rest)
      else if c = ',' then
        match skipJsonWs rest with
        | d :: r2 =>
          if d = '"' then
            match parseJsonString r2 with
            | some (k, r3) => parseJsonMember fuel acc k r3
            | none => none
          else none
        | [] => none
      else none
    | [] => none

end

/-- Concrete model of the external stdlib `json.loads` on the JSON fragment
used in this development: `none` models a raised `json.JSONDecodeError`. -/
def jsonLoads (s : Str) : Option Json :=
  match parseJsonValue (2 * s.length + 2) s with
  | some (v, rest) => if (skipJsonWs rest).isEmpty then some v else none
  | none => none

/-- A demonstration question bank for witnesses: one question whose correct
answer is the label A. -/
def qDemo : List Question :=
  [{ question := some "What is ML?".toList
     correct_answer := some "A".toList
     explanation := some "basics".toList }]

/-- Answers matching `qDemo` exactly. -/
def ansDemo : Nat → Option Str := fun _ => some "A".toList

/-- A question carrying no `correct_answer` key at all. -/
def qNoKey : Question := { question := none, correct_answer := none, explanation := none }

/-- An answers mapping with no submissions. -/
def noAns : Nat → Option Str := fun _ => none

/-- Two questions for the case-insensitivity and missing-answer witnesses:
the first is answered in lowercase, the second not at all. -/
def qsC3 : List Question :=
  [{ question := some "Q1".toList, correct_answer := some "A".toList, explanation := none },
   { question := some "Q2".toList, correct_answer := some "B".toList, explanation := none }]

/-- Answers for `qsC3`: lowercase a for the first question, nothing for the
second. -/
def ansC3 : Nat → Option Str := fun i => if i = 0 then some "a".toList else none

/-- A single retrieved chunk used by witnesses. -/
def docDemo : Doc :=
  { page_content := "Neural networks are computing systems inspired by biological neural networks.".toList
    source := some "ml.txt".toList
    page := some 1 }

/-- A one-chunk retrieval result. -/
def docsDemo : List Doc := [docDemo]

/-- A model output whose fenced block is not valid JSON. -/
def rawBadOut : Str := "```json\n\x7bbad\n```".toList

/-- An LLM that always produces `rawBadOut`. -/
def llmBad : QuizPrompt → Str := fun _ => rawBadOut

/-- The candidate text `_extract_json` recovers from `rawBadOut`. -/
def badExtracted : Str := "\x7bbad".toList

/-- An LLM that produces valid JSON lacking a `questions` array. -/
def llmShape : QuizPrompt → Str := fun _ => "\x7b\"foo\": 1\x7d".toList

/-- The raw content of the first demo page. -/
def rawDemoContent : Str :=
  ("  Machine learning is a subset of artificial intelligence"
    ++ " that provides systems the ability to learn.  ").toList

/-- A raw extraction result for the ingestion witnesses: one real page and
one page whose cleaned text is under 50 characters. -/
def rawDemo : List RawDoc :=
  [{ content := rawDemoContent, source := some "ml.txt".toList, page := some 1 },
   { content := "short page".toList, source := some "ml.txt".toList, page := some 2 }]

/-- A fixed LLM answer function for the Q&A witnesses. -/
def llmQA : QAPrompt → Str := fun _ => "an answer".toList

/-- An identity splitter standing in for the external langchain splitter in
witnesses. -/
def idSplit : List Doc → List Doc := fun l => l

/-- Witness input for the extraction claims: prose with no fences and no
braces. -/
def plainDemo : Str := "hello world, no json here".toList

/-! Grading lemmas. -/

theorem gradeRows_filter_count (qs : List Question) (ans : Nat → Option Str) :
    ∀ k, ((gradeRows k qs ans).filter (fun r => r.is_correct)).length
      = matchCount qs ans k := by
  induction qs with
  | nil => intro k; rfl
  | cons q rest ih =>
    intro k
    by_cases h : pyUpper ((ans k).getD []) = pyUpper (q.correct_answer.getD [])
    · simp [gradeRows, matchCount, gradeRow, List.filter_cons, h, ih (k + 1)]
      omega
    · simp [gradeRows, matchCount, gradeRow, List.filter_cons, h, ih (k + 1)]

theorem grade_quiz_correct_eq (qs : List Question) (ans : Nat → Option Str) :
    (grade_quiz qs ans).correct = matchCount qs ans 0 := by
  simp [grade_quiz, gradeRows_filter_count]

theorem grade_quiz_total_eq (qs : List Question) (ans : Nat → Option Str) :
    (grade_quiz qs ans).total = qs.length := rfl

theorem grade_quiz_score_eq (qs : List Question) (ans : Nat → Option Str) :
    (grade_quiz qs ans).score
      = pyRound1 (if qs.isEmpty then 0
          else ((matchCount qs ans 0 : ℚ) / (qs.length : ℚ)) * 100) := by
  simp [grade_quiz, gradeRows_filter_count]

theorem matchCount_eq_length_of_all (qs : List Question) (ans : Nat → Option Str) :
    ∀ k, (∀ i (hi : i < qs.length),
        ans (k + i) = some ((qs.get ⟨i, hi⟩).correct_answer.getD [])) →
      matchCount qs ans k = qs.length := by
  induction qs with
  | nil => intro k _; rfl
  | cons q rest ih =>
    intro k h
    have h0 := h 0 (by simp)
    simp only [Nat.add_zero] at h0
    have hrest : ∀ i (hi : i < rest.length),
        ans ((k + 1) + i) = some ((rest.get ⟨i, hi⟩).correct_answer.getD []) := by
      intro i hi
      have := h (i + 1) (by simpa using Nat.succ_lt_succ hi)
      simpa [Nat.add_comm, Nat.add_assoc, Nat.add_left_comm] using this
    simp [matchCount, h0, List.get, ih (k + 1) hrest]
    omega

theorem pyRound1_zero : pyRound1 0 = 0 := by
  norm_num [pyRound1, roundHalfEven]

theorem pyRound1_hundred : pyRound1 100 = 100 := by
  norm_num [pyRound1, roundHalfEven]

theorem gradeRows_getElem? (qs : List Question) (ans : Nat → Option Str) :
    ∀ k i, (gradeRows k qs ans)[i]?
      = (qs[i]?).map (fun q => gradeRow (k + i) q ans) := by
  induction qs with
  | nil => intro k i; simp [gradeRows]
  | cons q rest ih =>
    intro k i
    cases i with
    | zero => simp [gradeRows]
    | succ j =>
      simp only [gradeRows, List.getElem?_cons_succ, ih (k + 1) j]
      have : k + 1 + j = k + (j + 1) := by omega
      rw [this]

theorem one_le_correct_of_row (qs : List Question) (ans : Nat → Option Str)
    (i : Nat) (r : GradedRow) (h : (grade_quiz qs ans).results[i]? = some r)
    (hc : r.is_correct = true) : 1 ≤ (grade_quiz qs ans).correct := by
  have hmem : r ∈ (grade_quiz qs ans).results := by
    have hi : i < (grade_quiz qs ans).results.length := by
      by_contra hge
      rw [List.getElem?_eq_none (Nat.le_of_not_lt hge)] at h
      exact Option.noConfusion h
    rw [List.getElem?_eq_getElem hi] at h
    rw [← Option.some_inj.mp h]
    exact (grade_quiz qs ans).results.getElem_mem hi
  have hfil : r ∈ (grade_quiz qs ans).results.filter (fun r => r.is_correct) :=
    List.mem_filter.mpr ⟨hmem, hc⟩
  have hne : (grade_quiz qs ans).results.filter (fun r => r.is_correct) ≠ [] :=
    List.ne_nil_of_mem hfil
  have hpos := List.length_pos.mpr hne
  simpa [grade_quiz] using hpos

/-- C2: `grade_quiz` returns score = 100 × (count of matching answers) /
(question count) rounded to one decimal place (Python's half-to-even
rounding, floats modelled as exact rationals); an empty question list gives
score 0, correct 0, total 0; and answers equal to each question's
`correct_answer` give score 100 (for a non-empty quiz — the empty case is
the separately stated score-0 case). -/
theorem grade_quiz_score_spec :
    (∀ (qs : List Question) (ans : Nat → Option Str), qs ≠ [] →
        (grade_quiz qs ans).score
            = pyRound1 (100 * (matchCount qs ans 0 : ℚ) / (qs.length : ℚ))
          ∧ (grade_quiz qs ans).correct = matchCount qs ans 0
          ∧ (grade_quiz qs ans).total = qs.length)
      ∧ (∀ ans, (grade_quiz [] ans).score = 0 ∧ (grade_quiz [] ans).correct = 0
          ∧ (grade_quiz [] ans).total = 0)
      ∧ (∀ (qs : List Question) (ans : Nat → Option Str), qs ≠ [] →
          (∀ i (hi : i < qs.length),
            ans i = some ((qs.get ⟨i, hi⟩).correct_answer.getD [])) →
          (grade_quiz qs ans).score = 100) := by
  refine ⟨?_, ?_, ?_⟩
  · intro qs ans hne
    refine ⟨?_, grade_quiz_correct_eq qs ans, grade_quiz_total_eq qs ans⟩
    rw [grade_quiz_score_eq]
    have : qs.isEmpty = false := by simpa [List.isEmpty_iff] using hne
    rw [this]
    simp only [Bool.false_eq_true, if_false]
    congr 1
    ring
  · intro ans
    refine ⟨?_, rfl, rfl⟩
    rw [grade_quiz_score_eq]
    simp [pyRound1_zero]
  · intro qs ans hne hall
    have hm : matchCount qs ans 0 = qs.length := by
      apply matchCount_eq_length_of_all qs ans 0
      intro i hi
      simpa using hall i hi
    rw [grade_quiz_score_eq]
    have hempty : qs.isEmpty = false := by simpa [List.isEmpty_iff] using hne
    have hlen : (qs.length : ℚ) ≠ 0 :=
      Nat.cast_ne_zero.mpr (Nat.pos_iff_ne_zero.mp (List.length_pos.mpr hne))
    rw [hempty, hm]
    simp only [Bool.false_eq_true, if_false]
    rw [div_self hlen, one_mul, pyRound1_hundred]

/-- C2 witness: the demonstration quiz is non-empty, its score obeys the
rounded formula, and the exactly-correct submission scores 100. -/
theorem grade_quiz_score_spec_witness :
    qDemo ≠ []
      ∧ (grade_quiz qDemo ansDemo).score
          = pyRound1 (100 * (matchCount qDemo ansDemo 0 : ℚ) / (qDemo.length : ℚ))
      ∧ (grade_quiz qDemo ansDemo).score = 100 :=
  ⟨by decide, (grade_quiz_score_spec.1 qDemo ansDemo (by decide)).1,
    grade_quiz_score_spec.2.2 qDemo ansDemo (by decide) (by decide)⟩

/-- C3 counterexample: for a question whose `correct_answer` key is absent,
an absent submission IS graded as matching (both sides default to the empty
string), so the "never matches" part of the claim fails: the single
unanswered question is counted correct. -/
theorem grade_missing_answer_counterexample :
    (grade_quiz [qNoKey] noAns).correct = 1
      ∧ (grade_quiz [qNoKey] noAns).results.map (fun r => r.is_correct)
          = [true] := by
  exact ⟨rfl, rfl⟩

/-- C3 (amended): answer comparison is case-insensitive (equal uppercased
labels match), and a question whose index is absent from the answers mapping
is recorded as Not answered and never matches PROVIDED its correct answer is
non-empty; grading is a total function, so it never throws. -/
theorem grade_case_insensitive_and_missing :
    (∀ (qs : List Question) (ans : Nat → Option Str) (i : Nat) (q : Question)
        (s t : Str),
        qs[i]? = some q → ans i = some s → q.correct_answer = some t →
        pyUpper s = pyUpper t →
        ∃ r, (grade_quiz qs ans).results[i]? = some r ∧ r.is_correct = true)
      ∧ (∀ (qs : List Question) (ans : Nat → Option Str) (i : Nat) (q : Question),
        qs[i]? = some q → ans i = none → q.correct_answer.getD [] ≠ [] →
        ∃ r, (grade_quiz qs ans).results[i]? = some r ∧ r.is_correct = false
          ∧ r.user_answer = notAnswered) := by
  constructor
  · intro qs ans i q s t hq ha hc hup
    refine ⟨gradeRow i q ans, ?_, ?_⟩
    · have := gradeRows_getElem? qs ans 0 i
      simp only [Nat.zero_add] at this
      simp [grade_quiz, this, hq]
    · simp [gradeRow, ha, hc, hup]
  · intro qs ans i q hq ha hc
    refine ⟨gradeRow i q ans, ?_, ?_, ?_⟩
    · have := gradeRows_getElem? qs ans 0 i
      simp only [Nat.zero_add] at this
      simp [grade_quiz, this, hq]
    · simp only [gradeRow, ha, Option.getD_none]
      simp [pyUpper]
      exact hc
    · simp [gradeRow, ha, pyUpper, notAnswered]

/-- C3 witness: in the two-question demo, the lowercase submission a matches
correct answer A, and the unanswered second question (correct answer B) is
recorded Not answered and not correct. -/
theorem grade_case_insensitive_and_missing_witness :
    (∃ r, (grade_quiz qsC3 ansC3).results[0]? = some r ∧ r.is_correct = true)
      ∧ (∃ r, (grade_quiz qsC3 ansC3).results[1]? = some r ∧ r.is_correct = false
          ∧ r.user_answer = notAnswered) :=
  ⟨grade_case_insensitive_and_missing.1 qsC3 ansC3 0
      { question := some "Q1".toList, correct_answer := some "A".toList,
        explanation := none }
      "a".toList "A".toList rfl rfl rfl (by decide),
    grade_case_insensitive_and_missing.2 qsC3 ansC3 1
      { question := some "Q2".toList, correct_answer := some "B".toList,
        explanation := none }
      rfl rfl (by decide)⟩

/-- C9: a question whose `correct_answer` field is absent or empty is
graded correct for an unanswered index (both sides default to the empty
string and compare equal), and such a question contributes to the correct
count, hence to the score. -/
theorem grade_empty_key_matches_unanswered :
    ∀ (qs : List Question) (ans : Nat → Option Str) (i : Nat) (q : Question),
      qs[i]? = some q → ans i = none →
      (q.correct_answer = none ∨ q.correct_answer = some []) →
      ∃ r, (grade_quiz qs ans).results[i]? = some r ∧ r.is_correct = true
        ∧ r.user_answer = notAnswered ∧ 1 ≤ (grade_quiz qs ans).correct := by
  intro qs ans i q hq ha hcor
  have hrow : (grade_quiz qs ans).results[i]? = some (gradeRow i q ans) := by
    have := gradeRows_getElem? qs ans 0 i
    simp only [Nat.zero_add] at this
    simp [grade_quiz, this, hq]
  have hcorrect : (gradeRow i q ans).is_correct = true := by
    rcases hcor with h | h <;> simp [gradeRow, ha, h, pyUpper]
  refine ⟨gradeRow i q ans, hrow, hcorrect, ?_, ?_⟩
  · simp [gradeRow, ha, pyUpper, notAnswered]
  · exact one_le_correct_of_row qs ans i _ hrow hcorrect

/-- C9 witness: the one-question demo bank with no `correct_answer` key and
no submissions produces a correct, Not answered row. -/
theorem grade_empty_key_matches_unanswered_witness :
    ∃ r, (grade_quiz [qNoKey] noAns).results[0]? = some r ∧ r.is_correct = true
      ∧ r.user_answer = notAnswered ∧ 1 ≤ (grade_quiz [qNoKey] noAns).correct :=
  grade_empty_key_matches_unanswered [qNoKey] noAns 0 qNoKey rfl rfl (Or.inl rfl)

/-! RAG operation claims. -/

/-- C5: empty retrieval is a successful result, not an error: with no
retrieved chunks, `ask_question` returns the fixed no-relevant-information
sentinel with empty sources, `summarize` the nothing-to-summarize sentinel
with empty sources, and `extract_definitions` its sentinel with empty
sources; all three are total functions, so none raises. -/
theorem empty_retrieval_sentinels :
    (∀ (llm : QAPrompt → Str) (question : Str),
        (ask_question [] llm question).answer = noInfoAnswer
          ∧ (ask_question [] llm question).sources = [])
      ∧ (∀ (llm : SummPrompt → Str) (ty : Str),
        (summarize [] llm ty).summary = noSummary
          ∧ (summarize [] llm ty).sources = [])
      ∧ (∀ llm : DefPrompt → Str,
        (extract_definitions [] llm).definitions = noDefs
          ∧ (extract_definitions [] llm).sources = []) :=
  ⟨fun _ _ => ⟨rfl, rfl⟩, fun _ _ => ⟨rfl, rfl⟩, fun _ => ⟨rfl, rfl⟩⟩

/-- C7: context assembly obeys the fixed character budgets: the quiz
context is built from at most the first 8 retrieved chunks and truncated to
3000 characters, the summarize/definitions context is truncated to 4000
characters, and each operation consults its model only on the prompt built
from that truncated context (two models agreeing there produce identical
results). -/
theorem context_budgets :
    (∀ docs : List Doc, (quizContext docs).length ≤ 3000
        ∧ quizContext docs <+: joinWith nl2 ((docs.take 8).map (fun d => d.page_content)))
      ∧ (∀ docs : List Doc, (summContext docs).length ≤ 4000
        ∧ summContext docs <+: joinWith nl2 (docs.map (fun d => d.page_content)))
      ∧ (∀ (docs : List Doc) (llm₁ llm₂ : QuizPrompt → Str)
          (loads : Str → Option Json) (topic : Str) (n : Nat) (diff : Str),
          llm₁ { num_questions := n, context := quizContext docs, difficulty := diff }
            = llm₂ { num_questions := n, context := quizContext docs, difficulty := diff } →
          generate_quiz docs llm₁ loads topic n diff
            = generate_quiz docs llm₂ loads topic n diff)
      ∧ (∀ (docs : List Doc) (llm₁ llm₂ : SummPrompt → Str) (ty : Str),
          llm₁ { context := summContext docs, summary_type := ty }
            = llm₂ { context := summContext docs, summary_type := ty } →
          summarize docs llm₁ ty = summarize docs llm₂ ty)
      ∧ (∀ (docs : List Doc) (llm₁ llm₂ : DefPrompt → Str),
          llm₁ { context := summContext docs } = llm₂ { context := summContext docs } →
          extract_definitions docs llm₁ = extract_definitions docs llm₂) := by
  refine ⟨?_, ?_, ?_, ?_, ?_⟩
  · intro docs
    exact ⟨by simpa [quizContext] using Nat.min_le_left _ _, List.take_prefix _ _⟩
  · intro docs
    exact ⟨by simpa [summContext] using Nat.min_le_left _ _, List.take_prefix _ _⟩
  · intro docs llm₁ llm₂ loads topic n diff h
    unfold generate_quiz
    rw [h]
  · intro docs llm₁ llm₂ ty h
    by_cases hd : docs.isEmpty <;> simp [summarize, hd, h]
  · intro docs llm₁ llm₂ h
    by_cases hd : docs.isEmpty <;> simp [extract_definitions, hd, h]

/-- C7 witness: concrete instantiation of the budget bounds and of the
model-congruence parts at the one-chunk demo retrieval. -/
theorem context_budgets_witness :
    (quizContext docsDemo).length ≤ 3000
      ∧ generate_quiz docsDemo llmBad jsonLoads "t".toList 3 "medium".toList
          = generate_quiz docsDemo llmBad jsonLoads "t".toList 3 "medium".toList
      ∧ summarize docsDemo (fun _ => "s".toList) "bullets".toList
          = summarize docsDemo (fun _ => "s".toList) "bullets".toList :=
  ⟨(context_budgets.1 docsDemo).1,
    context_budgets.2.2.1 docsDemo llmBad llmBad jsonLoads "t".toList 3
      "medium".toList rfl,
    context_budgets.2.2.2.1 docsDemo (fun _ => "s".toList) (fun _ => "s".toList)
      "bullets".toList rfl⟩

/-- C8: for a non-empty retrieval, `ask_question` returns one citation per
retrieved chunk, each carrying the chunk's source name and page together
with an excerpt consisting of at most 200 characters of the chunk's content
(a prefix), followed by the ellipsis marker. -/
theorem ask_sources_excerpts :
    ∀ (docs : List Doc) (llm : QAPrompt → Str) (question : Str), docs ≠ [] →
      (ask_question docs llm question).sources.length = docs.length
        ∧ ∀ c ∈ (ask_question docs llm question).sources,
            ∃ d ∈ docs, c.source = d.source.getD unknownSource ∧ c.page = d.page
              ∧ ∃ e, e <+: d.page_content ∧ e.length ≤ 200
                ∧ c.excerpt = e ++ ellipsis := by
  intro docs llm question hne
  have hd : docs.isEmpty = false := by simpa [List.isEmpty_iff] using hne
  constructor
  · simp [ask_question, hd]
  · intro c hc
    simp only [ask_question, hd, Bool.false_eq_true, if_false, List.mem_map] at hc
    obtain ⟨d, hd', rfl⟩ := hc
    refine ⟨d, hd', rfl, rfl, d.page_content.take 200, List.take_prefix _ _, ?_, rfl⟩
    simpa using Nat.min_le_left 200 d.page_content.length

/-- C8 witness: the demo retrieval is non-empty and its citations carry
bounded prefix excerpts. -/
theorem ask_sources_excerpts_witness :
    docsDemo ≠ []
      ∧ (ask_question docsDemo llmQA "q".toList).sources.length = docsDemo.length :=
  ⟨by decide, (ask_sources_excerpts docsDemo llmQA "q".toList (by decide)).1⟩

/-! Ingestion cleanup lemmas. -/

theorem pySplitWsAux_pieces (s : Str) :
    ∀ cur, (∀ c ∈ cur, isPySpace c = false) →
      ∀ p ∈ pySplitWsAux cur s, p ≠ [] ∧ ∀ c ∈ p, isPySpace c = false := by
  induction s with
  | nil =>
    intro cur hcur p hp
    by_cases he : cur.isEmpty
    · simp [pySplitWsAux, he] at hp
    · simp only [pySplitWsAux, he, Bool.false_eq_true, if_false, List.mem_singleton] at hp
      subst hp
      refine ⟨?_, fun c hc => hcur c (List.mem_reverse.mp hc)⟩
      have : cur ≠ [] := by simpa [List.isEmpty_iff] using he
      simpa using this
  | cons a s ih =>
    intro cur hcur p hp
    by_cases ha : isPySpace a
    · by_cases he : cur.isEmpty
      · simp only [pySplitWsAux, ha, he, if_true] at hp
        exact ih [] (by simp) p hp
      · simp only [pySplitWsAux, ha, he, if_true, Bool.false_eq_true, if_false,
          List.mem_cons] at hp
        rcases hp with hp | hp
        · subst hp
          refine ⟨?_, fun c hc => hcur c (List.mem_reverse.mp hc)⟩
          have : cur ≠ [] := by simpa [List.isEmpty_iff] using he
          simpa using this
        · exact ih [] (by simp) p hp
    · simp only [pySplitWsAux, ha, Bool.false_eq_true, if_false] at hp
      refine ih (a :: cur) ?_ p hp
      intro c hc
      rcases List.mem_cons.mp hc with rfl | hc'
      · simpa using ha
      · exact hcur c hc'

theorem chain'_of_nonspace (w : Str) (h : ∀ c ∈ w, isPySpace c = false) :
    List.Chain' (fun a b => ¬(isPySpace a = true ∧ isPySpace b = true)) w := by
  induction w with
  | nil => simp
  | cons c w ih =>
    rw [List.chain'_cons']
    refine ⟨?_, ih (fun d hd => h d (List.mem_cons_of_mem c hd))⟩
    intro y _
    have := h c (List.mem_cons_self c w)
    simp [this]

theorem joinWith_head? (sep y : Str) (rest : List Str) (hy : y ≠ []) :
    (joinWith sep (y :: rest)).head? = y.head? := by
  cases rest with
  | nil => rfl
  | cons z rest =>
    show ((y ++ sep) ++ joinWith sep (z :: rest)).head? = y.head?
    rw [List.append_assoc]
    exact List.head?_append_of_ne_nil y hy

theorem joinWith_space_spec (ps : List Str)
    (h : ∀ p ∈ ps, p ≠ [] ∧ ∀ c ∈ p, isPySpace c = false) :
    List.Chain' (fun a b => ¬(isPySpace a = true ∧ isPySpace b = true))
        (joinWith [' '] ps)
      ∧ ∀ c ∈ joinWith [' '] ps, isPySpace c = true → c = ' ' := by
  induction ps with
  | nil => exact ⟨by simp [joinWith], by simp [joinWith]⟩
  | cons x ps ih =>
    cases ps with
    | nil =>
      refine ⟨chain'_of_nonspace x (h x (by simp)).2, ?_⟩
      intro c hc hsp
      have := (h x (by simp)).2 c (by simpa [joinWith] using hc)
      rw [this] at hsp
      cases hsp
    | cons y rest =>
      have hx := h x (List.mem_cons_self x _)
      have hy := h y (List.mem_cons_of_mem x (List.mem_cons_self y rest))
      have hrest : ∀ p ∈ y :: rest, p ≠ [] ∧ ∀ c ∈ p, isPySpace c = false :=
        fun p hp => h p (List.mem_cons_of_mem x hp)
      obtain ⟨ihc, ihm⟩ := ih hrest
      constructor
      · show List.Chain' _ ((x ++ [' ']) ++ joinWith [' '] (y :: rest))
        rw [List.append_assoc, List.chain'_append]
        refine ⟨chain'_of_nonspace x hx.2, ?_, ?_⟩
        · rw [show ([' '] ++ joinWith [' '] (y :: rest))
              = ' ' :: joinWith [' '] (y :: rest) from rfl, List.chain'_cons']
          refine ⟨?_, ihc⟩
          intro b hb
          rw [joinWith_head? [' '] y rest hy.1] at hb
          have hbY : b ∈ y := List.mem_of_mem_head? hb
          have := hy.2 b hbY
          simp [this]
        · intro a ha b _
          have haX : a ∈ x := List.mem_of_mem_getLast? ha
          have := hx.2 a haX
          simp [this]
      · intro c hc hsp
        rcases List.mem_append.mp hc with hc' | hc''
        · rcases List.mem_append.mp hc' with h1 | h2
          · have := hx.2 c h1
            rw [this] at hsp
            cases hsp
          · simpa using h2
        · exact ihm c hc'' hsp

theorem head?_dropWhile_nonspace (l : Str) (c : Char)
    (h : (l.dropWhile isPySpace).head? = some c) : isPySpace c = false := by
  have hne : l.dropWhile isPySpace ≠ [] := by
    intro he
    rw [he] at h
    cases h
  have h2 : (l.dropWhile isPySpace).head hne = c := by
    rw [List.head?_eq_head hne] at h
    exact Option.some_inj.mp h
  rw [← h2]
  exact List.head_dropWhile_not isPySpace l hne

theorem stripList_head?_nonspace (s : Str) (c : Char)
    (h : (stripList s).head? = some c) : isPySpace c = false := by
  unfold stripList at h
  rw [List.head?_reverse] at h
  have hne : ((s.dropWhile isPySpace).reverse.dropWhile isPySpace) ≠ [] := by
    intro he
    rw [he] at h
    cases h
  obtain ⟨t, ht⟩ := List.dropWhile_suffix (l := (s.dropWhile isPySpace).reverse) isPySpace
  have h1 : ((s.dropWhile isPySpace).reverse).getLast? = some c := by
    rw [← ht, List.getLast?_append_of_ne_nil t hne]
    exact h
  rw [List.getLast?_reverse] at h1
  exact head?_dropWhile_nonspace s c h1

theorem stripList_getLast?_nonspace (s : Str) (c : Char)
    (h : (stripList s).getLast? = some c) : isPySpace c = false := by
  unfold stripList at h
  rw [List.getLast?_reverse] at h
  exact head?_dropWhile_nonspace _ c h

theorem mem_of_mem_stripList (s : Str) (c : Char) (h : c ∈ stripList s) :
    c ∈ s := by
  unfold stripList at h
  rw [List.mem_reverse] at h
  have h3 := List.IsSuffix.mem h (List.dropWhile_suffix _)
  rw [List.mem_reverse] at h3
  exact List.IsSuffix.mem h3 (List.dropWhile_suffix _)

/-- C6: pre-chunking cleanup collapses whitespace runs to single spaces (the
collapse stage output has no two adjacent whitespace characters, and its
only whitespace character is the space), then strips NUL characters, then
trims (the cleaned text neither starts nor ends with whitespace); every
document whose cleaned text is not longer than 50 characters — in
particular every one under 50 characters — is discarded; and an empty
extraction result makes `process_documents` raise the content-extraction
error instead of returning chunks. -/
theorem clean_and_filter_spec :
    (∀ t : Str, clean_text t = stripList (removeNulls (collapseWs t)))
      ∧ (∀ t : Str,
          List.Chain' (fun a b => ¬(isPySpace a = true ∧ isPySpace b = true))
              (collapseWs t)
            ∧ ∀ c ∈ collapseWs t, isPySpace c = true → c = ' ')
      ∧ (∀ t : Str, nullChar ∉ clean_text t)
      ∧ (∀ (t : Str) (c : Char),
          ((clean_text t).head? = some c → isPySpace c = false)
            ∧ ((clean_text t).getLast? = some c → isPySpace c = false))
      ∧ (∀ raw : List RawDoc, ∀ d ∈ keptDocs raw, 50 < d.page_content.length)
      ∧ (∀ (f : List Doc → List Doc) (raw : List RawDoc), raw ≠ [] →
          process_documents f raw = Except.ok (f (keptDocs raw)))
      ∧ (∀ f : List Doc → List Doc,
          process_documents f []
            = Except.error "No content extracted from document".toList) := by
  refine ⟨fun _ => rfl, ?_, ?_, ?_, ?_, ?_, fun _ => rfl⟩
  · intro t
    exact joinWith_space_spec (pySplitWs t) (pySplitWsAux_pieces t [] (by simp))
  · intro t h
    have h2 := mem_of_mem_stripList _ _ h
    rcases List.mem_filter.mp h2 with ⟨_, hdec⟩
    simp at hdec
  · intro t c
    exact ⟨stripList_head?_nonspace _ c, stripList_getLast?_nonspace _ c⟩
  · intro raw d hd
    rcases List.mem_filterMap.mp hd with ⟨r, _, hr⟩
    simp only at hr
    split at hr
    · next hcond =>
      cases Option.some_inj.mp hr
      exact hcond.2
    · cases hr
  · intro f raw h
    have : raw.isEmpty = false := by simpa [List.isEmpty_iff] using h
    simp [process_documents, this]

/-- C6 witness: on the demo extraction result, the cleaned first page starts
with M and ends with a period (both non-whitespace), and processing returns
the split of the kept documents. -/
theorem clean_and_filter_spec_witness :
    isPySpace 'M' = false ∧ isPySpace '.' = false
      ∧ process_documents idSplit rawDemo = Except.ok (idSplit (keptDocs rawDemo)) :=
  ⟨(clean_and_filter_spec.2.2.2.1 rawDemoContent 'M').1 (by decide),
    (clean_and_filter_spec.2.2.2.1 rawDemoContent '.').2 (by decide),
    clean_and_filter_spec.2.2.2.2.2.1 idSplit rawDemo (by decide)⟩

/-! Extraction lemmas. -/

theorem isPrefixOf_cons_of_ne (h : Char) (sep' : Str) (c : Char) (s : Str)
    (hne : h ≠ c) : (h :: sep').isPrefixOf (c :: s) = false := by
  simp [List.isPrefixOf, hne]

theorem splitFirstSub_append_left (sep pre rest : Str) (h : Char)
    (hh : sep.head? = some h) (hpre : h ∉ pre) :
    splitFirstSub sep (pre ++ sep ++ rest) = some (pre, rest) := by
  obtain ⟨sep', rfl⟩ : ∃ sep', sep = h :: sep' := by
    cases sep with
    | nil => cases hh
    | cons a t =>
      rw [List.head?_cons, Option.some_inj] at hh
      exact ⟨t, by rw [hh]⟩
  induction pre with
  | nil =>
    have hp : (h :: sep').isPrefixOf ((h :: sep') ++ rest) = true :=
      List.isPrefixOf_iff_prefix.mpr (List.prefix_append _ _)
    show splitFirstSub (h :: sep') (h :: (sep' ++ rest)) = some ([], rest)
    rw [splitFirstSub, if_pos (by simpa using hp)]
    simp [List.length_cons, List.drop_succ_cons, List.drop_left]
  | cons c pre' ih =>
    have hne : h ≠ c := fun he => hpre (he ▸ List.mem_cons_self c pre')
    have hpre' : h ∉ pre' := fun hm => hpre (List.mem_cons_of_mem c hm)
    show splitFirstSub (h :: sep') (c :: (pre' ++ (h :: sep') ++ rest))
      = some (c :: pre', rest)
    rw [splitFirstSub, if_neg (by simp [isPrefixOf_cons_of_ne h sep' c _ hne]),
      ih hpre']
    rfl

theorem splitFirstSub_none_of_not_mem (sep s : Str) (h : Char)
    (hh : sep.head? = some h) (hs : h ∉ s) : splitFirstSub sep s = none := by
  obtain ⟨sep', rfl⟩ : ∃ sep', sep = h :: sep' := by
    cases sep with
    | nil => cases hh
    | cons a t =>
      rw [List.head?_cons, Option.some_inj] at hh
      exact ⟨t, by rw [hh]⟩
  induction s with
  | nil => rfl
  | cons c s ih =>
    have hne : h ≠ c := fun he => hs (he ▸ List.mem_cons_self c s)
    have hs' : h ∉ s := fun hm => hs (List.mem_cons_of_mem c hm)
    rw [splitFirstSub, if_neg (by simp [isPrefixOf_cons_of_ne h sep' c s hne]),
      ih hs']
    rfl

theorem splitFirstSub_eq_append (sep : Str) :
    ∀ s b a, splitFirstSub sep s = some (b, a) → s = b ++ sep ++ a := by
  intro s
  induction s with
  | nil =>
    intro b a h
    rw [splitFirstSub] at h
    by_cases he : sep.isEmpty
    · rw [if_pos he] at h
      obtain ⟨rfl, rfl⟩ : b = [] ∧ a = [] := by
        constructor <;> cases Option.some_inj.mp h <;> rfl
      have : sep = [] := List.isEmpty_iff.mp he
      simp [this]
    · rw [if_neg he] at h
      cases h
  | cons c s ih =>
    intro b a h
    rw [splitFirstSub] at h
    by_cases hp : sep.isPrefixOf (c :: s)
    · rw [if_pos hp] at h
      cases Option.some_inj.mp h
      have hpre : sep <+: c :: s := List.isPrefixOf_iff_prefix.mp hp
      have := List.prefix_iff_eq_append.mp hpre
      simp only [List.nil_append]
      exact this.symm
    · rw [if_neg hp] at h
      cases hsp : splitFirstSub sep s with
      | none => rw [hsp] at h; cases h
      | some p =>
        rw [hsp] at h
        obtain ⟨b', a'⟩ := p
        simp only [Option.map_some'] at h
        obtain ⟨hb, ha⟩ : c :: b' = b ∧ a' = a := by
          cases Option.some_inj.mp h
          exact ⟨rfl, rfl⟩
        rw [← hb, ← ha]
        have := ih b' a' hsp
        rw [List.cons_append, List.cons_append, ← this]

theorem containsSub_of_split (sep pre rest : Str) (h : Char)
    (hh : sep.head? = some h) (hpre : h ∉ pre) :
    containsSub sep (pre ++ sep ++ rest) = true := by
  unfold containsSub
  rw [splitFirstSub_append_left sep pre rest h hh hpre]
  rfl

theorem firstIdxOf_cons_self (t : Char) (s : Str) :
    firstIdxOf t (t :: s) = some 0 := by
  simp [firstIdxOf]

theorem firstIdxOf_append_of_not_mem (t : Char) (l1 l2 : Str) (h : t ∉ l1) :
    firstIdxOf t (l1 ++ l2) = (firstIdxOf t l2).map (· + l1.length) := by
  induction l1 with
  | nil =>
    simp only [List.nil_append, List.length_nil]
    cases firstIdxOf t l2 <;> simp
  | cons c l1 ih =>
    have hne : c ≠ t := fun he => h (he ▸ List.mem_cons_self c l1)
    have h' : t ∉ l1 := fun hm => h (List.mem_cons_of_mem c hm)
    rw [List.cons_append, firstIdxOf, if_neg hne, ih h']
    cases firstIdxOf t l2 with
    | none => rfl
    | some i => simp [Option.map_map]; omega

theorem firstIdxOf_decomp (t : Char) :
    ∀ (s : Str) (i : Nat), firstIdxOf t s = some i →
      ∃ p r, s = p ++ t :: r ∧ p.length = i := by
  intro s
  induction s with
  | nil => intro i h; cases h
  | cons c s ih =>
    intro i h
    rw [firstIdxOf] at h
    by_cases hc : c = t
    · rw [if_pos hc] at h
      cases Option.some_inj.mp h
      exact ⟨[], s, by rw [hc]; rfl, rfl⟩
    · rw [if_neg hc] at h
      obtain ⟨i', hi', rfl⟩ := Option.map_eq_some'.mp h
      obtain ⟨p, r, hs, hp⟩ := ih i' hi'
      exact ⟨c :: p, r, by rw [List.cons_append, hs], by simp [hp]⟩

theorem lastIdxOf_decomp (t : Char) (s : Str) (j : Nat)
    (h : lastIdxOf t s = some j) : ∃ p r, s = p ++ t :: r ∧ p.length = j := by
  unfold lastIdxOf at h
  obtain ⟨k, hk, hj⟩ := Option.map_eq_some'.mp h
  obtain ⟨q, r, hrev, hq⟩ := firstIdxOf_decomp t s.reverse k hk
  refine ⟨r.reverse, q.reverse, ?_, ?_⟩
  · have := congrArg List.reverse hrev
    rw [List.reverse_reverse, List.reverse_append] at this
    simpa using this
  · have hlen : s.length = q.length + 1 + r.length := by
      have := congrArg List.length hrev
      simp at this
      omega
    rw [List.length_reverse]
    omega

theorem two_le_length_of_head_last (s : Str) (h1 : s.head? = some lbrace)
    (h2 : s.getLast? = some rbrace) : 2 ≤ s.length := by
  cases s with
  | nil => cases h1
  | cons a t =>
    cases t with
    | nil =>
      rw [List.head?_cons, Option.some_inj] at h1
      have h2' : a = rbrace := by
        simpa [List.getLast?] using h2
      rw [h1] at h2'
      exact absurd h2' (by decide)
    | cons b u => simp

theorem braceSpan_sandwich (ws1 obj ws2 : Str)
    (h1 : lbrace ∉ ws1) (h2 : rbrace ∉ ws2)
    (ho1 : obj.head? = some lbrace) (ho2 : obj.getLast? = some rbrace) :
    braceSpan (ws1 ++ obj ++ ws2) = some obj := by
  have hlen2 : 2 ≤ obj.length := two_le_length_of_head_last obj ho1 ho2
  obtain ⟨obj', rfl⟩ : ∃ o, obj = lbrace :: o := by
    cases obj with
    | nil => cases ho1
    | cons a o =>
      rw [List.head?_cons, Option.some_inj] at ho1
      exact ⟨o, by rw [ho1]⟩
  set obj := lbrace :: obj' with hobj
  have hfirst : firstIdxOf lbrace (ws1 ++ obj ++ ws2) = some ws1.length := by
    rw [List.append_assoc, firstIdxOf_append_of_not_mem lbrace ws1 (obj ++ ws2) h1]
    rw [show obj ++ ws2 = lbrace :: (obj' ++ ws2) from rfl, firstIdxOf_cons_self]
    simp
  obtain ⟨orev, hor⟩ : ∃ o, obj.reverse = rbrace :: o := by
    cases hrev : obj.reverse with
    | nil => simp [hobj] at hrev
    | cons b o =>
      have := List.head?_reverse obj
      rw [hrev, List.head?_cons, ho2] at this
      exact ⟨o, by rw [Option.some_inj.mp this]⟩
  have hlast : lastIdxOf rbrace (ws1 ++ obj ++ ws2)
      = some (ws1.length + obj.length - 1) := by
    unfold lastIdxOf
    rw [List.reverse_append, List.reverse_append,
      firstIdxOf_append_of_not_mem rbrace ws2.reverse _ (by simpa using h2),
      hor, List.cons_append, firstIdxOf_cons_self]
    simp only [Option.map_some', Option.some_inj]
    simp only [List.length_append, List.length_reverse]
    omega
  unfold braceSpan
  rw [hfirst, hlast]
  dsimp only
  rw [if_pos (by omega)]
  congr 1
  have hd : (ws1 ++ obj ++ ws2).drop ws1.length = obj ++ ws2 := by
    rw [List.append_assoc]
    exact List.drop_left ws1 (obj ++ ws2)
  rw [hd]
  have : ws1.length + obj.length - 1 - ws1.length + 1 = obj.length := by omega
  rw [this]
  exact List.take_left obj ws2

theorem stripList_eq_self_of_nonspace (s : Str) (c1 c2 : Char)
    (h1 : s.head? = some c1) (hc1 : isPySpace c1 = false)
    (h2 : s.getLast? = some c2) (hc2 : isPySpace c2 = false) :
    stripList s = s := by
  have hd1 : s.dropWhile isPySpace = s := by
    cases s with
    | nil => rfl
    | cons a s' =>
      rw [List.head?_cons, Option.some_inj] at h1
      rw [List.dropWhile_cons, if_neg (by rw [h1, hc1]; simp)]
  rw [stripList, hd1]
  cases hrev : s.reverse with
  | nil =>
    have : s = [] := by simpa using congrArg List.reverse hrev
    rw [this] at h2
    cases h2
  | cons b r' =>
    have hb : b = c2 := by
      have := List.head?_reverse s
      rw [hrev, List.head?_cons, h2] at this
      exact Option.some_inj.mp this
    rw [List.dropWhile_cons, if_neg (by rw [hb, hc2]; simp), ← hrev,
      List.reverse_reverse]

theorem braceSpan_some_decomp (s m : Str) (h : braceSpan s = some m) :
    ∃ p1 mid p2, s = p1 ++ lbrace :: mid ++ rbrace :: p2 := by
  unfold braceSpan at h
  cases hf : firstIdxOf lbrace s with
  | none => rw [hf] at h; cases h
  | some i =>
    cases hl : lastIdxOf rbrace s with
    | none => rw [hf, hl] at h; cases h
    | some j =>
      rw [hf, hl] at h
      by_cases hij : i < j
      · obtain ⟨p1, r1, hs1, hp1⟩ := firstIdxOf_decomp lbrace s i hf
        obtain ⟨p2, r2, hs2, hp2⟩ := lastIdxOf_decomp rbrace s j hl
        have e1 : s.take j = p2 := by
          rw [hs2, ← hp2]
          exact List.take_left p2 _
        have e2 : s.take j = p1 ++ lbrace :: r1.take (j - i - 1) := by
          rw [hs1, List.take_append_eq_append_take,
            List.take_of_length_le (by omega)]
          congr 1
          have hji : j - p1.length = (j - i - 1) + 1 := by omega
          rw [hji, List.take_succ_cons]
        refine ⟨p1, r1.take (j - i - 1), r2, ?_⟩
        rw [hs2, ← e1, e2]
      · dsimp only at h
        rw [if_neg hij] at h
        cases h

theorem isPySpace_not_special (c : Char) (h : isPySpace c = true) :
    c ≠ backtick ∧ c ≠ lbrace ∧ c ≠ rbrace := by
  unfold isPySpace at h
  simp only [Bool.or_eq_true, decide_eq_true_eq] at h
  rcases h with ((((h | h) | h) | h) | h) | h <;> subst h <;>
    exact ⟨by decide, by decide, by decide⟩

/-- C1: `_extract_json` recovers the embedded JSON object: for model output
that wraps a brace-delimited object (with optional whitespace padding) in a
```json fence, with backtick-free prose before the fence and anything after
it, extraction returns exactly the object's text; and for output that is
backtick- and brace-free prose around a bare brace-delimited object,
extraction returns the span from the first opening brace to the last
closing brace, i.e. exactly the object. -/
theorem extract_json_recovers :
    (∀ pre ws1 obj ws2 post : Str,
        backtick ∉ pre → backtick ∉ obj →
        (∀ c ∈ ws1, isPySpace c = true) → (∀ c ∈ ws2, isPySpace c = true) →
        obj.head? = some lbrace → obj.getLast? = some rbrace →
        extractJson (pre ++ tickJson ++ ws1 ++ obj ++ ws2 ++ ticks ++ post) = obj)
      ∧ (∀ pre obj post : Str,
        (∀ c ∈ pre, c ≠ backtick ∧ c ≠ lbrace ∧ c ≠ rbrace) →
        (∀ c ∈ post, c ≠ backtick ∧ c ≠ lbrace ∧ c ≠ rbrace) →
        backtick ∉ obj → obj.head? = some lbrace → obj.getLast? = some rbrace →
        extractJson (pre ++ obj ++ post) = obj) := by
  constructor
  · intro pre ws1 obj ws2 post hpre hobj hws1 hws2 hhead hlast
    have hmid : backtick ∉ ws1 ++ obj ++ ws2 := by
      intro hm
      rcases List.mem_append.mp hm with hm' | hm2
      · rcases List.mem_append.mp hm' with hm1 | hmo
        · exact (isPySpace_not_special _ (hws1 _ hm1)).1 rfl
        · exact hobj hmo
      · exact (isPySpace_not_special _ (hws2 _ hm2)).1 rfl
    have hass : pre ++ tickJson ++ ws1 ++ obj ++ ws2 ++ ticks ++ post
        = pre ++ tickJson ++ ((ws1 ++ obj ++ ws2) ++ ticks ++ post) := by
      simp [List.append_assoc]
    rw [hass]
    have h1 : splitFirstSub tickJson
        (pre ++ tickJson ++ ((ws1 ++ obj ++ ws2) ++ ticks ++ post))
        = some (pre, (ws1 ++ obj ++ ws2) ++ ticks ++ post) :=
      splitFirstSub_append_left _ _ _ backtick (by decide) hpre
    have h2 : splitFirstSub ticks ((ws1 ++ obj ++ ws2) ++ ticks ++ post)
        = some (ws1 ++ obj ++ ws2, post) :=
      splitFirstSub_append_left _ _ _ backtick (by decide) hmid
    have h3 : braceSpan (ws1 ++ obj ++ ws2) = some obj :=
      braceSpan_sandwich ws1 obj ws2
        (fun hm => (isPySpace_not_special _ (hws1 _ hm)).2.1 rfl)
        (fun hm => (isPySpace_not_special _ (hws2 _ hm)).2.2 rfl)
        hhead hlast
    have h4 : stripList obj = obj :=
      stripList_eq_self_of_nonspace obj lbrace rbrace hhead (by decide)
        hlast (by decide)
    simp only [extractJson, containsSub, afterFirstSub, beforeFirstSub,
      h1, h2, h3, h4, Option.isSome_some, if_true]
  · intro pre obj post hpre hpost hobj hhead hlast
    have hnb : backtick ∉ pre ++ obj ++ post := by
      intro hm
      rcases List.mem_append.mp hm with hm' | hm2
      · rcases List.mem_append.mp hm' with hm1 | hmo
        · exact (hpre _ hm1).1 rfl
        · exact hobj hmo
      · exact (hpost _ hm2).1 rfl
    have h1 : splitFirstSub tickJson (pre ++ obj ++ post) = none :=
      splitFirstSub_none_of_not_mem _ _ backtick (by decide) hnb
    have h2 : splitFirstSub ticks (pre ++ obj ++ post) = none :=
      splitFirstSub_none_of_not_mem _ _ backtick (by decide) hnb
    have h3 : braceSpan (pre ++ obj ++ post) = some obj :=
      braceSpan_sandwich pre obj post (fun hm => (hpre _ hm).2.1 rfl)
        (fun hm => (hpost _ hm).2.2 rfl) hhead hlast
    have h4 : stripList obj = obj :=
      stripList_eq_self_of_nonspace obj lbrace rbrace hhead (by decide)
        hlast (by decide)
    simp only [extractJson, containsSub, h1, h2, h3, h4, Option.isSome_none,
      Bool.false_eq_true, if_false]

/-- C1 witness: a concrete fenced extraction and a concrete bare-object
extraction both recover exactly the embedded object text. -/
theorem extract_json_recovers_witness :
    extractJson ("Here is the quiz:\n".toList ++ tickJson ++ "\n".toList
        ++ "\x7b\"questions\": [1]\x7d".toList ++ "\n".toList ++ ticks
        ++ " done".toList)
      = "\x7b\"questions\": [1]\x7d".toList
    ∧ extractJson ("Sure! ".toList ++ "\x7b\"questions\": []\x7d".toList
        ++ " Enjoy.".toList)
      = "\x7b\"questions\": []\x7d".toList :=
  ⟨extract_json_recovers.1 "Here is the quiz:\n".toList "\n".toList
      "\x7b\"questions\": [1]\x7d".toList "\n".toList " done".toList
      (by decide) (by decide) (by decide) (by decide) (by decide) (by decide),
    extract_json_recovers.2 "Sure! ".toList "\x7b\"questions\": []\x7d".toList
      " Enjoy.".toList (by decide) (by decide) (by decide) (by decide) (by decide)⟩

/-- C10: `_extract_json` is a total function of the input string (the
embedding is a Lean function, so it returns without raising on every
input), and when the input contains no fenced code block (no
triple-backtick occurrence) and no brace-delimited span (no opening brace
followed by a later closing brace), it returns the input unchanged except
for whitespace stripping. -/
theorem extract_json_passthrough :
    ∀ s : Str,
      (¬ ∃ pre post : Str, s = pre ++ ticks ++ post) →
      (¬ ∃ pre mid post : Str, s = pre ++ lbrace :: mid ++ rbrace :: post) →
      extractJson s = stripList s := by
  intro s hfence hbrace
  have h1 : splitFirstSub tickJson s = none := by
    cases hsp : splitFirstSub tickJson s with
    | none => rfl
    | some p =>
      obtain ⟨b, a⟩ := p
      have hs := splitFirstSub_eq_append tickJson s b a hsp
      refine absurd ⟨b, "json".toList ++ a, ?_⟩ hfence
      rw [hs, show tickJson = ticks ++ "json".toList from by decide]
      simp [List.append_assoc]
  have h2 : splitFirstSub ticks s = none := by
    cases hsp : splitFirstSub ticks s with
    | none => rfl
    | some p =>
      obtain ⟨b, a⟩ := p
      exact absurd ⟨b, a, splitFirstSub_eq_append ticks s b a hsp⟩ hfence
  have h3 : braceSpan s = none := by
    cases hbs : braceSpan s with
    | none => rfl
    | some m => exact absurd (braceSpan_some_decomp s m hbs) hbrace
  simp only [extractJson, containsSub, h1, h2, h3, Option.isSome_none,
    Bool.false_eq_true, if_false]

/-- C10 witness: on plain prose with no fence and no braces, extraction is
exactly whitespace stripping. -/
theorem extract_json_passthrough_witness :
    extractJson plainDemo = stripList plainDemo :=
  extract_json_passthrough plainDemo
    (fun ⟨pre, post, hs⟩ => by
      have hmem : backtick ∈ plainDemo := by
        rw [hs]
        exact List.mem_append.mpr
          (Or.inl (List.mem_append.mpr (Or.inr (by decide))))
      exact absurd hmem (by decide))
    (fun ⟨pre, mid, post, hs⟩ => by
      have hmem : lbrace ∈ plainDemo := by
        rw [hs]
        exact List.mem_append.mpr
          (Or.inl (List.mem_append.mpr (Or.inr (List.mem_cons_self _ _))))
      exact absurd hmem (by decide))

/-- C4 counterexample: the claim that every parse or shape failure returns
an error carrying the raw model output is false on the code.  For a model
output whose fenced block is invalid JSON, the returned parse error carries
the extracted candidate text, which differs from the raw model output; and
for valid JSON lacking a `questions` array, the `Invalid quiz structure`
path lands in the generic exception handler, whose error dict carries no
raw text at all. -/
theorem generate_quiz_raw_response_counterexample :
    generate_quiz docsDemo llmBad jsonLoads "ml".toList 3 "medium".toList
        = QuizReturn.parseError badExtracted
      ∧ badExtracted ≠ rawBadOut
      ∧ generate_quiz docsDemo llmShape jsonLoads "ml".toList 3 "medium".toList
        = QuizReturn.genError :=
  ⟨rfl, by decide, rfl⟩

/-- C4 (amended): for a non-empty retrieval, when the extracted candidate
fails to parse, `generate_quiz` returns a structured parse error whose
attached raw text is the extracted candidate (the model output after
`_extract_json`, not the raw model output) with an empty questions list;
when the candidate parses but lacks a `questions` array (or is not an
object), it returns a structured error with an empty questions list but
with no raw text attached; no partial quiz is returned in either case. -/
theorem generate_quiz_error_paths :
    ∀ (docs : List Doc) (llm : QuizPrompt → Str) (loads : Str → Option Json)
      (topic : Str) (n : Nat) (diff : Str), docs ≠ [] →
      (loads (extractJson (llm ⟨n, quizContext docs, diff⟩)) = none →
        generate_quiz docs llm loads topic n diff
            = QuizReturn.parseError (extractJson (llm ⟨n, quizContext docs, diff⟩))
          ∧ returnedQuestions (generate_quiz docs llm loads topic n diff) = [])
      ∧ (∀ kvs, loads (extractJson (llm ⟨n, quizContext docs, diff⟩))
              = some (Json.obj kvs) →
          (∀ qs, jsonLookup questionsKey kvs ≠ some (Json.arr qs)) →
          generate_quiz docs llm loads topic n diff = QuizReturn.genError
            ∧ returnedQuestions (generate_quiz docs llm loads topic n diff) = [])
      ∧ (∀ j, loads (extractJson (llm ⟨n, quizContext docs, diff⟩)) = some j →
          (∀ kvs, j ≠ Json.obj kvs) →
          generate_quiz docs llm loads topic n diff = QuizReturn.genError
            ∧ returnedQuestions (generate_quiz docs llm loads topic n diff) = []) := by
  intro docs llm loads topic n diff hne
  have hd : docs.isEmpty = false := by simpa [List.isEmpty_iff] using hne
  refine ⟨?_, ?_, ?_⟩
  · intro hparse
    have hmain : generate_quiz docs llm loads topic n diff
        = QuizReturn.parseError (extractJson (llm ⟨n, quizContext docs, diff⟩)) := by
      simp only [generate_quiz, quizPostProcess, hd, Bool.false_eq_true,
        if_false, hparse]
    exact ⟨hmain, by rw [hmain]; rfl⟩
  · intro kvs hobj hnoq
    have hmain : generate_quiz docs llm loads topic n diff
        = QuizReturn.genError := by
      simp only [generate_quiz, quizPostProcess, hd, Bool.false_eq_true,
        if_false, hobj]
    exact ⟨hmain, by rw [hmain]; rfl⟩
  · intro j hj hnotobj
    have hmain : generate_quiz docs llm loads topic n diff
        = QuizReturn.genError := by
      simp only [generate_quiz, quizPostProcess, hd, Bool.false_eq_true,
        if_false, hj]
    exact ⟨hmain, by rw [hmain]; rfl⟩

/-- C4 (amended) witness: the demo retrieval is non-empty; the invalid
fenced output takes the parse-error path carrying the extracted candidate,
and the questions-free object takes the generic-error path. -/
theorem generate_quiz_error_paths_witness :
    docsDemo ≠ []
      ∧ generate_quiz docsDemo llmBad jsonLoads "ml".toList 3 "medium".toList
          = QuizReturn.parseError
              (extractJson (llmBad ⟨3, quizContext docsDemo, "medium".toList⟩))
      ∧ generate_quiz docsDemo llmShape jsonLoads "ml".toList 3 "medium".toList
          = QuizReturn.genError :=
  ⟨by decide,
    ((generate_quiz_error_paths docsDemo llmBad jsonLoads "ml".toList 3
        "medium".toList (by decide)).1 rfl).1,
    ((generate_quiz_error_paths docsDemo llmShape jsonLoads "ml".toList 3
        "medium".toList (by decide)).2.1 [("foo".toList, Json.num 1)] rfl
      (fun qs h => Option.noConfusion h)).1⟩

end StudyAssistant
